import Mathlib

/-!
# Verification of the `money-works` Money value type (`src/lib/money.js`)

Shallow embedding conventions:

* big.js decimal values are modelled as exact rationals (`ℚ`); big.js performs
  exact decimal arithmetic on `plus`/`minus`/`times`, which `ℚ` captures.
* Plain JavaScript numbers that can be `NaN` or `undefined` where a claim
  depends on it (the `precision` argument and the resolved forex rate) are
  modelled by `JSVal`; ordinary finite numbers are rationals.  JavaScript
  division `ratio / total` with `total = 0` yields `NaN` or `±Infinity`, both
  of which the big.js constructor rejects with its "Invalid number" error;
  the embedding represents that rejection directly.  For a nonzero total the
  quotient is modelled as the exact rational quotient.
* A thrown JavaScript exception is an `Except.error`; the settled state of the
  promise returned by `to` is likewise an `Except` (a rejection is `.error`),
  so "never fails synchronously" corresponds to `Money.to` being a total
  function into `Except`.
* The JavaScript errors are modelled by the `JSError` datatype: the generic
  `Error` carrying an "is not a valid ISO-4217 currency code" message is
  `invalidCurrency`, the `'Currencies must be the same'` error is
  `currencyMismatch`, a thrown `TypeError` is `typeError`, big.js's
  "Invalid number" and "Invalid decimal places" errors are `bigInvalidNumber`
  and `bigInvalidDP`, and the "Undefined exchange rate" error is `noRate`.
* `money.js` requires `./l10n`, `./number` and `./free-forex`, none of which
  are part of the analysed sources; the localization lookup used for default
  precision is modelled from the spec (see `precisionOf`), and the forex
  collaborator is a parameter (the rate value it resolves).
-/

namespace MoneyWorks

/-- JavaScript values relevant to the embedding: `undefined`, `NaN`, or an
ordinary (finite) number modelled as an exact rational. -/
inductive JSVal where
  | undef : JSVal
  | nan : JSVal
  | num : ℚ → JSVal
deriving DecidableEq

/-- The errors the modelled code can throw (see module docstring for the
correspondence with the JavaScript error objects/messages). -/
inductive JSError where
  | invalidCurrency : String → JSError
  | currencyMismatch : JSError
  | typeError : JSError
  | bigInvalidNumber : JSError
  | bigInvalidDP : JSError
  | noRate : String → String → JSError
deriving DecidableEq

/-- An immutable monetary value: exact decimal amount plus currency code.
Immutability is inherent in the embedding: every operation is a pure function
returning a fresh value and no field is ever reassigned. -/
structure Money where
  amount : ℚ
  currency : String
deriving DecidableEq

/-- The ISO-4217 test `/^[A-Z]{3}$/.test(currency)` from `money.js`. -/
def iso4217 (c : String) : Bool :=
  c.length = 3 && c.toList.all (fun ch => 'A' ≤ ch && ch ≤ 'Z')

/-- The `Money` constructor (`function Money(amount, currency)`) for an
already-numeric amount: validates the currency against the ISO-4217 pattern
and otherwise throws `'...' is not a valid ISO-4217 currency code`. -/
def mkMoney (amount : ℚ) (currency : String) : Except JSError Money :=
  if iso4217 currency then .ok ⟨amount, currency⟩
  else .error (.invalidCurrency currency)

/-- Modelled from the spec: `Money.prototype.precision` consults the external
localization collaborator (`l10n(this.currency).resolvedOptions()
.maximumFractionDigits`, file `./l10n` not among the sources), which yields the
currency's standard minor-unit digit count — e.g. 2 for EUR/USD, 0 for JPY. -/
def precisionOf (currency : String) : ℕ :=
  if currency = "JPY" then 0 else 2

/-- Round a rational to an integer with big.js rounding mode 2
(`ROUND_HALF_EVEN`, banker's rounding): nearest integer, ties to even. -/
def rhe (x : ℚ) : ℤ :=
  let n := ⌊x⌋
  if x - n < 1 / 2 then n
  else if 1 / 2 < x - n then n + 1
  else if n % 2 = 0 then n else n + 1

/-- big.js `round(dp, 2)` for a valid number of decimal places `dp`:
half-even rounding at `dp` decimal digits. -/
def bigRound (x : ℚ) (dp : ℕ) : ℚ :=
  (rhe (x * 10 ^ dp) : ℚ) / 10 ^ dp

/-- JavaScript truthiness of the modelled values (`NaN`, `undefined` and `0`
are falsy). -/
def truthy : JSVal → Bool
  | .undef => false
  | .nan => false
  | .num x => decide (x ≠ 0)

/-- `Number.isInteger` on the modelled values (`NaN` and `undefined` are not
integers). -/
def isIntVal : JSVal → Bool
  | .num x => decide (x.den = 1)
  | _ => false

/-- big.js `round(dp, rm)` including its own validation of `dp`
(`dp !== ~~dp || dp < 0 || dp > MAX_DP` throws `Invalid decimal places`,
with `MAX_DP = 1e6`); `undefined` is treated as `0`. -/
def bigRoundJS (x : ℚ) (dp : JSVal) : Except JSError ℚ :=
  match dp with
  | .undef => .ok (bigRound x 0)
  | .nan => .error .bigInvalidDP
  | .num d =>
    if d.den = 1 ∧ 0 ≤ d ∧ d ≤ 1000000 then .ok (bigRound x d.num.toNat)
    else .error .bigInvalidDP

/-- The number of decimal digits actually used by `round` once a valid
precision argument has been resolved (the default comes from the
localization collaborator). -/
def natPrec (p : JSVal) (c : String) : ℕ :=
  match p with
  | .undef => precisionOf c
  | .nan => 0
  | .num d => d.num.toNat

/-- `Money.prototype.round`: a truthy non-integer precision throws
`TypeError('Precision must be an integer')`; an `undefined` precision is
replaced by the currency default; the rounded amount is rebuilt through the
`Money` constructor. -/
def Money.round (m : Money) (p : JSVal) : Except JSError Money :=
  if truthy p && !isIntVal p then .error .typeError
  else
    match bigRoundJS m.amount (if p = .undef then .num (precisionOf m.currency) else p) with
    | .error e => .error e
    | .ok q => mkMoney q m.currency

/-- `Money.prototype.plus`: requires equal currencies
(`'Currencies must be the same'`), result built through the constructor. -/
def Money.plus (x y : Money) : Except JSError Money :=
  if x.currency ≠ y.currency then .error .currencyMismatch
  else mkMoney (x.amount + y.amount) x.currency

/-- `Money.prototype.minus`: requires equal currencies, exact difference. -/
def Money.minus (x y : Money) : Except JSError Money :=
  if x.currency ≠ y.currency then .error .currencyMismatch
  else mkMoney (x.amount - y.amount) x.currency

/-- `Money.prototype.times`: the `typeof that !== 'number'` check is
discharged by the embedding's type (the scalar is a number); exact product,
result built through the constructor. -/
def Money.times (m : Money) (x : ℚ) : Except JSError Money :=
  mkMoney (m.amount * x) m.currency

/-- big.js `cmp`: sign of the comparison, in `{-1, 0, 1}`. -/
def qcmp (a b : ℚ) : ℤ :=
  if a < b then -1 else if b < a then 1 else 0

/-- `Money.prototype.compare`: requires equal currencies, then big.js `cmp`. -/
def Money.compare (x y : Money) : Except JSError ℤ :=
  if x.currency ≠ y.currency then .error .currencyMismatch
  else .ok (qcmp x.amount y.amount)

/-- `Money.prototype.eq`: `this.currency === that.currency &&
this.compare(that) === 0`; the `&&` short-circuit means `compare` is only
consulted when the currencies agree (the `.error` arm is unreachable). -/
def Money.eq (x y : Money) : Bool :=
  decide (x.currency = y.currency) &&
    match x.compare y with
    | .ok n => decide (n = 0)
    | .error _ => false

/-- `Money.prototype.ne`: `this.currency !== that.currency ||
this.compare(that) !== 0`; the `||` short-circuit makes the `.error` arm
unreachable. -/
def Money.ne (x y : Money) : Bool :=
  decide (x.currency ≠ y.currency) ||
    match x.compare y with
    | .ok n => decide (n ≠ 0)
    | .error _ => false

/-- `Money.prototype.isNotZero`: `this.amount.cmp(zero) !== 0`. -/
def Money.isNotZero (m : Money) : Bool :=
  decide (m.amount ≠ 0)

/-- The `ratios.map(...)` loop inside `allocate`, with the mutable
`remainder` threaded explicitly: each step computes
`amount.times(ratio / total).round(precision)` and subtracts the share from
the remainder.  When `total = 0` the JavaScript quotient is `NaN` or
`±Infinity`, which `times` (via the big.js constructor) rejects. -/
def allocLoop (amt : Money) (total : ℚ) (p : JSVal) :
    List ℚ → Money → Except JSError (Money × List Money)
  | [], rem => .ok (rem, [])
  | r :: rs, rem =>
    if total = 0 then .error .bigInvalidNumber
    else
      match amt.times (r / total) with
      | .error e => .error e
      | .ok t =>
        match t.round p with
        | .error e => .error e
        | .ok share =>
          match rem.minus share with
          | .error e => .error e
          | .ok rem1 =>
            match allocLoop amt total p rs rem1 with
            | .error e => .error e
            | .ok (remF, shares) => .ok (remF, share :: shares)

/-- `Money.prototype.allocate`: array/non-emptiness checks (`TypeError`),
`total = ratios.reduce((a,b) => a + b, 0)`, `amount = this.round(precision)`,
the share loop, and the final fix-up
`shares[0] = shares[0].plus(remainder).round(precision)` when the remainder
is not zero.  The `ratios` argument is a list, so the `Array.isArray` check
is discharged by the embedding's type. -/
def Money.allocate (m : Money) (ratios : List ℚ) (p : JSVal) :
    Except JSError (List Money) :=
  if ratios.length < 1 then .error .typeError
  else
    match m.round p with
    | .error e => .error e
    | .ok amount =>
      match allocLoop amount ratios.sum p ratios amount with
      | .error e => .error e
      | .ok (rem, shares) =>
        if rem.isNotZero then
          match shares with
          | [] => .ok []
          | s0 :: rest =>
            match s0.plus rem with
            | .error e => .error e
            | .ok s1 =>
              match s1.round p with
              | .error e => .error e
              | .ok s2 => .ok (s2 :: rest)
        else .ok shares

/-- `Money.prototype.to`, with the promise's settled state as an `Except` and
the forex collaborator represented by the value its promise resolves
(`rate : JSVal`; `undef` models a resolved `undefined`).  Control flow follows
the source: identity-currency short-circuit, ISO-4217 validation before the
collaborator is consulted, the `rate === undefined` rejection, and the
`try`/`catch` that turns any construction failure (e.g. big.js rejecting a
`NaN` rate) into a rejection. -/
def Money.to (m : Money) (c : String) (rate : JSVal) : Except JSError Money :=
  if m.currency = c then .ok m
  else if iso4217 c = false then .error (.invalidCurrency c)
  else
    match rate with
    | .undef => .error (.noRate m.currency c)
    | .nan => .error .bigInvalidNumber
    | .num q => mkMoney (m.amount * q) c

/-- The precision arguments accepted by `round`/`allocate`: omitted
(`undefined`), or a non-negative whole number within big.js's decimal-places
range. -/
def ValidPrec (p : JSVal) : Prop :=
  p = .undef ∨ ∃ n : ℕ, n ≤ 1000000 ∧ p = .num n

/-- `x` is representable with `dp` decimal digits. -/
def Dp (dp : ℕ) (x : ℚ) : Prop :=
  ∃ k : ℤ, x = (k : ℚ) / 10 ^ dp

/-- The provisional shares of the allocation loop (before the remainder
fix-up): `amount * (r / total)` rounded half-even at `dp` digits. -/
def provShares (a total : ℚ) (dp : ℕ) (rs : List ℚ) : List ℚ :=
  rs.map (fun r => bigRound (a * (r / total)) dp)

example : iso4217 "USD" = true := by decide
example : iso4217 "usd" = false := by decide
example : iso4217 "ZZ1" = false := by decide

lemma mkMoney_valid {c : String} (hc : iso4217 c = true) (a : ℚ) :
    mkMoney a c = .ok ⟨a, c⟩ := by
  simp [mkMoney, hc]

lemma mkMoney_ok_iff {a : ℚ} {c : String} {m : Money} :
    mkMoney a c = .ok m ↔ iso4217 c = true ∧ m = ⟨a, c⟩ := by
  unfold mkMoney
  split
  · rename_i h
    constructor
    · intro he
      injection he with he
      exact ⟨h, he.symm⟩
    · rintro ⟨-, rfl⟩
      rfl
  · rename_i h
    constructor
    · intro he
      cases he
    · rintro ⟨hc, -⟩
      exact absurd hc h

lemma precisionOf_le (c : String) : precisionOf c ≤ 1000000 := by
  unfold precisionOf
  split <;> norm_num

lemma rhe_intCast (k : ℤ) : rhe (k : ℚ) = k := by
  unfold rhe
  norm_num

lemma rhe_int_add_half (k : ℤ) :
    rhe ((k : ℚ) + 1 / 2) = if k % 2 = 0 then k else k + 1 := by
  unfold rhe
  have hfl : ⌊(k : ℚ) + 1 / 2⌋ = k := by
    rw [Int.floor_int_add]
    norm_num
  rw [hfl]
  norm_num

lemma bigRound_dp (x : ℚ) (dp : ℕ) : Dp dp (bigRound x dp) :=
  ⟨rhe (x * 10 ^ dp), rfl⟩

lemma Dp.sub {dp : ℕ} {x y : ℚ} (hx : Dp dp x) (hy : Dp dp y) :
    Dp dp (x - y) := by
  obtain ⟨a, rfl⟩ := hx
  obtain ⟨b, rfl⟩ := hy
  exact ⟨a - b, by push_cast; ring⟩

lemma Dp.add {dp : ℕ} {x y : ℚ} (hx : Dp dp x) (hy : Dp dp y) :
    Dp dp (x + y) := by
  obtain ⟨a, rfl⟩ := hx
  obtain ⟨b, rfl⟩ := hy
  exact ⟨a + b, by push_cast; ring⟩

lemma Dp.zero (dp : ℕ) : Dp dp 0 :=
  ⟨0, by norm_num⟩

lemma Dp.listSum {dp : ℕ} {l : List ℚ} (h : ∀ x ∈ l, Dp dp x) :
    Dp dp l.sum := by
  induction l with
  | nil => simpa using Dp.zero dp
  | cons a l ih =>
    rw [List.sum_cons]
    exact Dp.add (h a (by simp)) (ih fun x hx => h x (by simp [hx]))

lemma bigRound_eq_self {dp : ℕ} {x : ℚ} (h : Dp dp x) :
    bigRound x dp = x := by
  obtain ⟨k, rfl⟩ := h
  have hne : ((10 : ℚ) ^ dp) ≠ 0 := by positivity
  unfold bigRound
  rw [div_mul_cancel₀ _ hne, rhe_intCast]

lemma round_ok (m : Money) (p : JSVal) (hc : iso4217 m.currency = true)
    (hp : ValidPrec p) :
    m.round p = .ok ⟨bigRound m.amount (natPrec p m.currency), m.currency⟩ := by
  rcases hp with rfl | ⟨n, hn, rfl⟩
  · unfold Money.round
    have h6 : ((precisionOf m.currency : ℚ)) ≤ 1000000 := by
      exact_mod_cast precisionOf_le m.currency
    simp [truthy, bigRoundJS, natPrec, h6, mkMoney_valid hc]
  · unfold Money.round
    have h6 : ((n : ℚ)) ≤ 1000000 := by exact_mod_cast hn
    simp [truthy, isIntVal, bigRoundJS, natPrec, h6, mkMoney_valid hc]

lemma times_ok {c : String} (hc : iso4217 c = true) (a q : ℚ) :
    Money.times ⟨a, c⟩ q = .ok ⟨a * q, c⟩ := by
  simp [Money.times, mkMoney_valid hc]

lemma plus_ok {c : String} (hc : iso4217 c = true) (a b : ℚ) :
    Money.plus ⟨a, c⟩ ⟨b, c⟩ = .ok ⟨a + b, c⟩ := by
  simp [Money.plus, mkMoney_valid hc]

lemma minus_ok {c : String} (hc : iso4217 c = true) (a b : ℚ) :
    Money.minus ⟨a, c⟩ ⟨b, c⟩ = .ok ⟨a - b, c⟩ := by
  simp [Money.minus, mkMoney_valid hc]

lemma allocLoop_ok {c : String} (hc : iso4217 c = true) {total : ℚ}
    (htot : total ≠ 0) {p : JSVal} (hp : ValidPrec p) (A : ℚ) (rs : List ℚ)
    (R : ℚ) :
    allocLoop ⟨A, c⟩ total p rs ⟨R, c⟩ =
      .ok (⟨R - (provShares A total (natPrec p c) rs).sum, c⟩,
        (provShares A total (natPrec p c) rs).map (fun q => (⟨q, c⟩ : Money))) := by
  induction rs generalizing R with
  | nil => simp [allocLoop, provShares]
  | cons r rs ih =>
    unfold allocLoop
    rw [if_neg htot]
    have h1 : Money.times ⟨A, c⟩ (r / total) = .ok ⟨A * (r / total), c⟩ :=
      times_ok hc A (r / total)
    have h2 : Money.round ⟨A * (r / total), c⟩ p
        = .ok ⟨bigRound (A * (r / total)) (natPrec p c), c⟩ :=
      round_ok _ p hc hp
    have h3 : Money.minus ⟨R, c⟩ ⟨bigRound (A * (r / total)) (natPrec p c), c⟩
        = .ok ⟨R - bigRound (A * (r / total)) (natPrec p c), c⟩ :=
      minus_ok hc _ _
    have h4 := ih (R - bigRound (A * (r / total)) (natPrec p c))
    simp only [h1, h2, h3, h4, provShares, List.map_cons, List.sum_cons]
    rw [sub_sub]

lemma allocLoop_zero_total (amt : Money) (p : JSVal) (r : ℚ) (rs : List ℚ)
    (rem : Money) :
    allocLoop amt 0 p (r :: rs) rem = .error .bigInvalidNumber := by
  simp [allocLoop]

lemma allocate_cons_eq (m : Money) (r : ℚ) (rs : List ℚ) (p : JSVal)
    (hc : iso4217 m.currency = true) (htot : (r :: rs).sum ≠ 0)
    (hp : ValidPrec p) :
    m.allocate (r :: rs) p =
      .ok (⟨bigRound m.amount (natPrec p m.currency)
            - (provShares (bigRound m.amount (natPrec p m.currency))
                ((r :: rs).sum) (natPrec p m.currency) rs).sum, m.currency⟩
        :: (provShares (bigRound m.amount (natPrec p m.currency))
              ((r :: rs).sum) (natPrec p m.currency) rs).map
            (fun q => (⟨q, m.currency⟩ : Money))) := by
  obtain ⟨a, c⟩ := m
  simp only [Money.currency] at hc ⊢
  set dp := natPrec p c with hdp
  set A := bigRound a dp with hA
  have hDpA : Dp dp A := bigRound_dp a dp
  unfold Money.allocate
  rw [if_neg (by simp)]
  set T := (r :: rs).sum with hT
  have hrd : Money.round ⟨a, c⟩ p = .ok ⟨A, c⟩ := round_ok ⟨a, c⟩ p hc hp
  have hloop := allocLoop_ok hc htot hp A (r :: rs) A
  have hprov : provShares A T dp (r :: rs)
      = bigRound (A * (r / T)) dp :: provShares A T dp rs := by
    simp [provShares]
  rw [hprov] at hloop
  set s0 := bigRound (A * (r / T)) dp with hs0
  set St := (provShares A T dp rs).sum with hSt
  have hDps0 : Dp dp s0 := bigRound_dp _ dp
  have hDpSt : Dp dp St := by
    apply Dp.listSum
    intro x hx
    simp only [provShares, List.mem_map] at hx
    obtain ⟨y, -, rfl⟩ := hx
    exact bigRound_dp _ dp
  simp only [List.sum_cons, List.map_cons] at hloop
  simp only [hrd, hloop]
  by_cases hz : A - (s0 + St) = 0
  · rw [if_neg (by simp [Money.isNotZero, hz])]
    have he : s0 = A - St := by linarith
    rw [he]
  · rw [if_pos (by simp [Money.isNotZero, hz])]
    have h1 : Money.plus ⟨s0, c⟩ ⟨A - (s0 + St), c⟩
        = .ok ⟨s0 + (A - (s0 + St)), c⟩ := plus_ok hc _ _
    have h2 : Money.round ⟨s0 + (A - (s0 + St)), c⟩ p
        = .ok ⟨bigRound (s0 + (A - (s0 + St))) dp, c⟩ := round_ok _ p hc hp
    have hDp : Dp dp (s0 + (A - (s0 + St))) :=
      Dp.add hDps0 (Dp.sub hDpA (Dp.add hDps0 hDpSt))
    rw [bigRound_eq_self hDp] at h2
    have he : s0 + (A - (s0 + St)) = A - St := by ring
    simp only [h1, h2]
    rw [he]

lemma map_amount_mk (c : String) (l : List ℚ) :
    (l.map (fun q => (⟨q, c⟩ : Money))).map Money.amount = l := by
  simp [List.map_map, Function.comp_def]

lemma exists_cons_of_ne_nil {α : Type} {l : List α} (h : l ≠ []) :
    ∃ x xs, l = x :: xs := by
  cases l with
  | nil => exact absurd rfl h
  | cons x xs => exact ⟨x, xs, rfl⟩

/-- C1: for every Money `m`, every non-empty list of non-negative ratios with
positive sum, and any valid precision `p`, `m.allocate(ratios, p)` succeeds
and the shares sum exactly to `m.round(p)`; the result has the same length
and order as `ratios` (every share after the first is exactly the
provisionally rounded proportional share — the cumulative rounding error is
absorbed into the first share) and every share carries `m`'s currency. -/
theorem allocate_exact (m : Money) (ratios : List ℚ) (p : JSVal)
    (hc : iso4217 m.currency = true) (hne : ratios ≠ [])
    (hnonneg : ∀ r ∈ ratios, 0 ≤ r) (hpos : 0 < ratios.sum)
    (hp : ValidPrec p) :
    ∃ shares : List Money,
      m.allocate ratios p = .ok shares ∧
      m.round p = .ok ⟨bigRound m.amount (natPrec p m.currency), m.currency⟩ ∧
      (shares.map Money.amount).sum = bigRound m.amount (natPrec p m.currency) ∧
      shares.length = ratios.length ∧
      (∀ s ∈ shares, s.currency = m.currency) ∧
      shares.tail
        = (provShares (bigRound m.amount (natPrec p m.currency)) ratios.sum
            (natPrec p m.currency) ratios.tail).map
            (fun q => (⟨q, m.currency⟩ : Money)) := by
  obtain ⟨r, rs, rfl⟩ := exists_cons_of_ne_nil hne
  have htot : (r :: rs).sum ≠ 0 := ne_of_gt hpos
  have halloc := allocate_cons_eq m r rs p hc htot hp
  refine ⟨_, halloc, round_ok m p hc hp, ?_, ?_, ?_, ?_⟩
  · simp only [List.map_cons, map_amount_mk, List.sum_cons]
    ring
  · simp [provShares]
  · intro s hs
    simp only [List.mem_cons, List.mem_map] at hs
    rcases hs with rfl | ⟨q, -, rfl⟩ <;> rfl
  · simp [provShares]

/-- C1 witness: `Money(0.05, "USD").allocate([3, 1])` — the spec's own
example — succeeds, sums exactly to the rounded amount, and keeps length,
order and currency. -/
theorem allocate_exact_witness :
    ∃ shares : List Money,
      Money.allocate ⟨1/20, "USD"⟩ [3, 1] .undef = .ok shares ∧
      Money.round ⟨1/20, "USD"⟩ .undef
        = .ok ⟨bigRound (1/20) (precisionOf "USD"), "USD"⟩ ∧
      (shares.map Money.amount).sum = bigRound (1/20) (precisionOf "USD") ∧
      shares.length = ([3, 1] : List ℚ).length ∧
      (∀ s ∈ shares, s.currency = "USD") ∧
      shares.tail
        = (provShares (bigRound (1/20) (precisionOf "USD"))
            (([3, 1] : List ℚ).sum) (precisionOf "USD")
            (([3, 1] : List ℚ).tail)).map (fun q => (⟨q, "USD"⟩ : Money)) :=
  allocate_exact ⟨1/20, "USD"⟩ [3, 1] .undef (by decide) (by simp)
    (by intro r hr; rcases List.mem_cons.mp hr with rfl | hr
        · norm_num
        · rcases List.mem_cons.mp hr with rfl | hr
          · norm_num
          · simp at hr)
    (by norm_num) (Or.inl rfl)

/-- C10: `allocate` performs no sign validation on the ratios: for every
non-empty list of ratios with nonzero sum (negative entries allowed) it
returns a list of shares without raising any ratio-related error; its only
argument checks are that `ratios` is an array (discharged by the embedding's
list type) and that it is non-empty (`TypeError` on the empty list). -/
theorem allocate_no_sign_check (m : Money) (ratios : List ℚ) (p : JSVal)
    (hc : iso4217 m.currency = true) (hne : ratios ≠ [])
    (hnz : ratios.sum ≠ 0) (hp : ValidPrec p) :
    (∃ shares : List Money,
      m.allocate ratios p = .ok shares ∧ shares.length = ratios.length) ∧
    m.allocate [] p = .error .typeError := by
  constructor
  · obtain ⟨r, rs, rfl⟩ := exists_cons_of_ne_nil hne
    exact ⟨_, allocate_cons_eq m r rs p hc hnz hp, by simp [provShares]⟩
  · simp [Money.allocate]

/-- C10 witness: `Money(10, "USD").allocate([3, -1])` — a negative ratio with
nonzero total — succeeds with two shares, and the empty array is rejected
with a `TypeError`. -/
theorem allocate_no_sign_check_witness :
    (∃ shares : List Money,
      Money.allocate ⟨10, "USD"⟩ [3, -1] .undef = .ok shares ∧
      shares.length = ([3, -1] : List ℚ).length) ∧
    Money.allocate ⟨10, "USD"⟩ [] .undef = .error .typeError :=
  allocate_no_sign_check ⟨10, "USD"⟩ [3, -1] .undef (by decide) (by simp)
    (by norm_num) (Or.inl rfl)

/-- C2 counterexample: `Money(10, "USD").allocate([0, 0])` does fail, but
with the big.js "Invalid number" error produced when `amount.times` receives
the `NaN`/`±Infinity` result of dividing by the zero total — there is no
distinguished `InvalidAllocation` error anywhere in the code. -/
theorem allocate_zero_total_counterexample :
    Money.allocate ⟨10, "USD"⟩ [0, 0] .undef = .error .bigInvalidNumber := by
  have hrd := round_ok ⟨10, "USD"⟩ .undef (by decide) (Or.inl rfl)
  have hz : ([0, 0] : List ℚ).sum = 0 := by norm_num
  unfold Money.allocate
  rw [if_neg (by simp)]
  simp only [hrd, hz, allocLoop_zero_total]

/-- C2 amended: allocating with a non-empty ratio list whose sum is zero
always fails — not silently — but the error is big.js's "Invalid number"
error (the degenerate division produces `NaN` or `±Infinity`, which the
decimal library rejects), not a distinguished `InvalidAllocation`. -/
theorem allocate_zero_total (m : Money) (ratios : List ℚ) (p : JSVal)
    (hc : iso4217 m.currency = true) (hne : ratios ≠ [])
    (hz : ratios.sum = 0) (hp : ValidPrec p) :
    m.allocate ratios p = .error .bigInvalidNumber := by
  obtain ⟨r, rs, rfl⟩ := exists_cons_of_ne_nil hne
  have hrd := round_ok m p hc hp
  unfold Money.allocate
  rw [if_neg (by simp)]
  simp only [hrd, hz, allocLoop_zero_total]

/-- C2 amended witness: the spec's own example `Money(10, "USD")
.allocate([0, 0])`, via the amended theorem. -/
theorem allocate_zero_total_witness :
    Money.allocate ⟨10, "USD"⟩ [0, 0] .undef = .error .bigInvalidNumber :=
  allocate_zero_total ⟨10, "USD"⟩ [0, 0] .undef (by decide) (by simp)
    (by norm_num) (Or.inl rfl)

/-- C3: `round` uses round-half-to-even: whenever `m.amount` lies exactly
halfway between the two values representable with `p` decimal digits
(`m.amount * 10^p = k + 1/2`), the result is the neighbor whose final digit
is even, and the currency is unchanged. -/
theorem round_half_even (m : Money) (p : ℕ) (k : ℤ)
    (hc : iso4217 m.currency = true) (hp : p ≤ 1000000)
    (hhalf : m.amount * 10 ^ p = (k : ℚ) + 1 / 2) :
    m.round (.num p)
      = .ok ⟨((if k % 2 = 0 then k else k + 1 : ℤ) : ℚ) / 10 ^ p, m.currency⟩
      ∧ (if k % 2 = 0 then k else k + 1) % 2 = 0 := by
  have hv : ValidPrec (.num p) := Or.inr ⟨p, hp, rfl⟩
  have hrd := round_ok m (.num p) hc hv
  have hnp : natPrec (.num p) m.currency = p := by simp [natPrec]
  rw [hnp] at hrd
  constructor
  · rw [hrd]
    unfold bigRound
    rw [hhalf, rhe_int_add_half]
  · split <;> omega

/-- C3 witness: the spec's own examples — `Money(2.5, "JPY").round(0)` is
`2 JPY` and `Money(3.5, "JPY").round(0)` is `4 JPY` (ties go to the even
neighbor), via the half-even theorem. -/
theorem round_half_even_witness :
    Money.round ⟨5/2, "JPY"⟩ (.num 0) = .ok ⟨2, "JPY"⟩
      ∧ Money.round ⟨7/2, "JPY"⟩ (.num 0) = .ok ⟨4, "JPY"⟩ := by
  constructor
  · have h := (round_half_even ⟨5/2, "JPY"⟩ 0 2 (by decide) (by norm_num)
      (by norm_num)).1
    simpa using h
  · have h := (round_half_even ⟨7/2, "JPY"⟩ 0 3 (by decide) (by norm_num)
      (by norm_num)).1
    simpa using h

/-- C4 counterexample: `round(NaN)` — a supplied precision that is not a
non-negative integer — does not fail with `TypeError`: `NaN` is falsy, so
the `precision && !Number.isInteger(precision)` guard is skipped, and the
failure instead comes from big.js's decimal-places validation. -/
theorem round_nan_counterexample :
    Money.round ⟨1, "USD"⟩ .nan = .error .bigInvalidDP
      ∧ Money.round ⟨1, "USD"⟩ .nan ≠ .error .typeError := by
  constructor
  · simp [Money.round, truthy, bigRoundJS]
  · simp [Money.round, truthy, bigRoundJS]

/-- C4 amended: the `TypeError` guard fires exactly for truthy non-integer
precisions (e.g. fractional numbers); a `NaN` precision is falsy, bypasses
the guard, and is rejected by big.js's decimal-places validation with a
non-`TypeError` error, and a negative integer precision likewise bypasses
the guard (it is left to the decimal library, which does not raise
`TypeError`).  When the precision is omitted, it defaults to the currency's
standard minor-unit precision from the localization collaborator. -/
theorem round_precision_guard (m : Money) (x : ℚ) (n : ℤ) :
    (x ≠ 0 → x.den ≠ 1 → Money.round m (.num x) = .error .typeError) ∧
    Money.round m .nan = .error .bigInvalidDP ∧
    (n < 0 → Money.round m (.num (n : ℚ)) ≠ .error .typeError) ∧
    Money.round m .undef = Money.round m (.num (precisionOf m.currency)) := by
  refine ⟨?_, ?_, ?_, ?_⟩
  · intro hx hden
    simp [Money.round, truthy, isIntVal, hx, hden]
  · simp [Money.round, truthy, bigRoundJS]
  · intro hn
    have hneg : ¬(0 : ℚ) ≤ (n : ℚ) := by exact_mod_cast not_le.mpr hn
    simp [Money.round, truthy, isIntVal, bigRoundJS, hneg,
      show (n : ℚ) ≠ 0 from by exact_mod_cast ne_of_lt hn]
  · simp [Money.round, truthy, isIntVal]

/-- C4 amended witness: `round(1.5)` raises `TypeError`, `round(NaN)` fails
with big.js's error instead of `TypeError`, `round(-1)` does not raise
`TypeError`, and an omitted precision equals the currency default — all via
the amended theorem at `Money(1, "USD")`. -/
theorem round_precision_guard_witness :
    Money.round ⟨1, "USD"⟩ (.num (3/2)) = .error .typeError
      ∧ Money.round ⟨1, "USD"⟩ .nan = .error .bigInvalidDP
      ∧ Money.round ⟨1, "USD"⟩ (.num ((-1 : ℤ) : ℚ)) ≠ .error .typeError
      ∧ Money.round ⟨1, "USD"⟩ .undef
          = Money.round ⟨1, "USD"⟩ (.num (precisionOf "USD")) := by
  obtain ⟨h1, h2, h3, h4⟩ := round_precision_guard ⟨1, "USD"⟩ (3/2) (-1)
  exact ⟨h1 (by norm_num) (by norm_num), h2, h3 (by norm_num), h4⟩

lemma eq_self (m : Money) : Money.eq m m = true := by
  simp [Money.eq, Money.compare, qcmp]

/-- C5: for same-currency `x, y`, `x.plus(y).minus(y).eq(x)` holds exactly:
the sum is the exact rational `x.amount + y.amount` in the shared currency,
subtracting `y` gives back exactly `x` (no precision loss), and — the
operations being pure functions of the embedding — neither operand is
mutated. -/
theorem plus_minus_roundtrip (x y : Money) (hc : iso4217 x.currency = true)
    (hcur : x.currency = y.currency) :
    ∃ z w : Money,
      x.plus y = .ok z ∧ z.minus y = .ok w ∧ Money.eq w x = true ∧ w = x ∧
      z.amount = x.amount + y.amount ∧ z.currency = x.currency := by
  obtain ⟨a, c⟩ := x
  obtain ⟨b, c2⟩ := y
  simp only [Money.currency] at hc hcur
  subst hcur
  have hw : (⟨a + b - b, c⟩ : Money) = ⟨a, c⟩ := by
    rw [add_sub_cancel_right]
  refine ⟨⟨a + b, c⟩, ⟨a + b - b, c⟩, plus_ok hc a b, minus_ok hc _ b, ?_,
    hw, rfl, rfl⟩
  rw [hw]
  exact eq_self _

/-- C5 witness: `Money(1, "USD")` and `Money(2, "USD")` — the round trip is
exact. -/
theorem plus_minus_roundtrip_witness :
    ∃ z w : Money,
      Money.plus ⟨1, "USD"⟩ ⟨2, "USD"⟩ = .ok z ∧
      Money.minus z ⟨2, "USD"⟩ = .ok w ∧
      Money.eq w ⟨1, "USD"⟩ = true ∧ w = ⟨1, "USD"⟩ ∧
      z.amount = (1 : ℚ) + 2 ∧ z.currency = "USD" :=
  plus_minus_roundtrip ⟨1, "USD"⟩ ⟨2, "USD"⟩ (by decide) rfl

/-- C6: for differing currencies, `plus`, `minus` and `compare` all fail with
the currency-mismatch error, while `eq` returns `false` and `ne` returns
`true` without raising anything. -/
theorem currency_mismatch_ops (x y : Money) (h : x.currency ≠ y.currency) :
    x.plus y = .error .currencyMismatch ∧
    x.minus y = .error .currencyMismatch ∧
    x.compare y = .error .currencyMismatch ∧
    Money.eq x y = false ∧
    Money.ne x y = true := by
  refine ⟨?_, ?_, ?_, ?_, ?_⟩ <;>
    simp [Money.plus, Money.minus, Money.compare, Money.eq, Money.ne, h]

/-- C6 witness: `Money(1, "USD")` against `Money(1, "EUR")`. -/
theorem currency_mismatch_ops_witness :
    Money.plus ⟨1, "USD"⟩ ⟨1, "EUR"⟩ = .error .currencyMismatch ∧
    Money.minus ⟨1, "USD"⟩ ⟨1, "EUR"⟩ = .error .currencyMismatch ∧
    Money.compare ⟨1, "USD"⟩ ⟨1, "EUR"⟩ = .error .currencyMismatch ∧
    Money.eq ⟨1, "USD"⟩ ⟨1, "EUR"⟩ = false ∧
    Money.ne ⟨1, "USD"⟩ ⟨1, "EUR"⟩ = true :=
  currency_mismatch_ops ⟨1, "USD"⟩ ⟨1, "EUR"⟩ (by decide)

/-- C7: `to` never fails synchronously (it is a total function into the
settled promise state): an invalid target currency yields a rejection with
the invalid-currency error independently of whatever the rate collaborator
would return (it is never consulted); a rate resolving to `undefined` yields
a rejection naming both currencies; and a failure raised while constructing
the converted Money (e.g. big.js rejecting a `NaN` rate) is delivered as a
rejection rather than thrown. -/
theorem to_failure_paths (m : Money) (c : String) (r : JSVal)
    (hne : c ≠ m.currency) :
    (iso4217 c = false → m.to c r = .error (.invalidCurrency c)) ∧
    (iso4217 c = true → m.to c .undef = .error (.noRate m.currency c)) ∧
    (iso4217 c = true → m.to c .nan = .error .bigInvalidNumber) := by
  have hmc : m.currency ≠ c := fun hx => hne hx.symm
  refine ⟨?_, ?_, ?_⟩ <;> intro hiso <;> simp [Money.to, hmc, hiso]

/-- C7 witness: from `Money(5, "USD")`: a malformed target `"ZZ1"` is
rejected as an invalid currency whatever the collaborator would say, a
missing (`undefined`) rate for `"EUR"` is rejected with the no-rate error
naming both currencies, and a `NaN` rate is rejected via the construction
`try`/`catch`. -/
theorem to_failure_paths_witness :
    Money.to ⟨5, "USD"⟩ "ZZ1" .nan = .error (.invalidCurrency "ZZ1") ∧
    Money.to ⟨5, "USD"⟩ "EUR" .undef = .error (.noRate "USD" "EUR") ∧
    Money.to ⟨5, "USD"⟩ "EUR" .nan = .error .bigInvalidNumber :=
  ⟨(to_failure_paths ⟨5, "USD"⟩ "ZZ1" .nan (by decide)).1 (by decide),
   (to_failure_paths ⟨5, "USD"⟩ "EUR" .undef (by decide)).2.1 (by decide),
   (to_failure_paths ⟨5, "USD"⟩ "EUR" .nan (by decide)).2.2 (by decide)⟩

/-- C8: converting to the Money's own currency resolves immediately to the
very same value, for every possible behavior of the rate collaborator (it is
not consulted) and with no validation of the target code (the theorem needs
no well-formedness hypothesis at all). -/
theorem to_same_currency (m : Money) (r : JSVal) :
    m.to m.currency r = .ok m := by
  simp [Money.to]

lemma mk_ok_valid {a : ℚ} {c : String} {z : Money} (h : mkMoney a c = .ok z) :
    iso4217 z.currency = true := by
  obtain ⟨hc, rfl⟩ := mkMoney_ok_iff.mp h
  simpa using hc

lemma round_valid {m z : Money} {p : JSVal} (h : m.round p = .ok z) :
    iso4217 z.currency = true := by
  unfold Money.round at h
  split at h
  · cases h
  · split at h
    · cases h
    · exact mk_ok_valid h

lemma plus_valid {x y z : Money} (h : x.plus y = .ok z) :
    iso4217 z.currency = true := by
  unfold Money.plus at h
  split at h
  · cases h
  · exact mk_ok_valid h

lemma minus_valid {x y z : Money} (h : x.minus y = .ok z) :
    iso4217 z.currency = true := by
  unfold Money.minus at h
  split at h
  · cases h
  · exact mk_ok_valid h

lemma allocLoop_valid {amt : Money} {total : ℚ} {p : JSVal} :
    ∀ {rs : List ℚ} {rem rem2 : Money} {shares : List Money},
      allocLoop amt total p rs rem = .ok (rem2, shares) →
      ∀ s ∈ shares, iso4217 s.currency = true := by
  intro rs
  induction rs with
  | nil =>
    intro rem rem2 shares h s hs
    simp only [allocLoop, Except.ok.injEq, Prod.mk.injEq] at h
    rw [← h.2] at hs
    simp at hs
  | cons r rs ih =>
    intro rem rem2 shares h s hs
    unfold allocLoop at h
    split at h
    · cases h
    · split at h
      · cases h
      · rename_i t htimes
        split at h
        · cases h
        · rename_i share hround
          split at h
          · cases h
          · rename_i rem1 hminus
            split at h
            · cases h
            · rename_i remF shares2 hrec
              injection h with h
              injection h with h1 h2
              rw [← h2] at hs
              rcases List.mem_cons.mp hs with rfl | hs2
              · exact round_valid hround
              · exact ih hrec s hs2

lemma allocate_valid {m : Money} {ratios : List ℚ} {p : JSVal}
    {shares : List Money} (h : m.allocate ratios p = .ok shares) :
    ∀ s ∈ shares, iso4217 s.currency = true := by
  unfold Money.allocate at h
  split at h
  · cases h
  · split at h
    · cases h
    · rename_i amount hrd
      split at h
      · cases h
      · rename_i rem shares2 hloop
        split at h
        · split at h
          · injection h with h
            rw [← h]
            intro s hs
            simp at hs
          · rename_i s0 rest
            split at h
            · cases h
            · rename_i s1 hplus
              split at h
              · cases h
              · rename_i s2 hround2
                injection h with h
                rw [← h]
                intro s hs
                rcases List.mem_cons.mp hs with rfl | hs2
                · exact round_valid hround2
                · exact allocLoop_valid hloop s (List.mem_cons_of_mem s0 hs2)
        · injection h with h
          rw [← h]
          exact allocLoop_valid hloop

/-- C9: every Money the code can produce carries an ISO-4217 currency:
construction with a non-matching code fails with the invalid-currency error
naming the offending code, a successful construction stores exactly the
given amount and (validated) currency, and every operation returning a Money
— `plus`, `minus`, `times`, `round`, `allocate`, `to` — only ever yields
values whose currency passes the ISO-4217 pattern (`to` needs the input
valid because its identity path returns the receiver unchanged).  Field
immutability holds by construction in the embedding: all operations are pure
and return fresh values. -/
theorem money_invariants :
    (∀ (a : ℚ) (c : String), iso4217 c = false →
      mkMoney a c = .error (.invalidCurrency c)) ∧
    (∀ (a : ℚ) (c : String) (m : Money), mkMoney a c = .ok m →
      m.amount = a ∧ m.currency = c ∧ iso4217 m.currency = true) ∧
    (∀ x y z : Money, x.plus y = .ok z → iso4217 z.currency = true) ∧
    (∀ x y z : Money, x.minus y = .ok z → iso4217 z.currency = true) ∧
    (∀ (x z : Money) (q : ℚ), x.times q = .ok z →
      iso4217 z.currency = true) ∧
    (∀ (x z : Money) (p : JSVal), x.round p = .ok z →
      iso4217 z.currency = true) ∧
    (∀ (x : Money) (rs : List ℚ) (p : JSVal) (shares : List Money),
      x.allocate rs p = .ok shares → ∀ s ∈ shares,
        iso4217 s.currency = true) ∧
    (∀ (x z : Money) (c : String) (r : JSVal), iso4217 x.currency = true →
      x.to c r = .ok z → iso4217 z.currency = true) := by
  refine ⟨?_, ?_, ?_, ?_, ?_, ?_, ?_, ?_⟩
  · intro a c hbad
    simp [mkMoney, hbad]
  · intro a c m h
    obtain ⟨hc, rfl⟩ := mkMoney_ok_iff.mp h
    exact ⟨rfl, rfl, by simpa using hc⟩
  · intro x y z h
    exact plus_valid h
  · intro x y z h
    exact minus_valid h
  · intro x z q h
    exact mk_ok_valid h
  · intro x z p h
    exact round_valid h
  · intro x rs p shares h
    exact allocate_valid h
  · intro x z c r hx h
    unfold Money.to at h
    split at h
    · injection h with h
      rw [← h]
      exact hx
    · split at h
      · cases h
      · split at h
        · cases h
        · cases h
        · exact mk_ok_valid h

/-- C9 witness: the lowercase code `"usd"` is rejected with the
invalid-currency error naming it, and constructing `Money(5, "USD")`
stores amount `5` and the validated currency `"USD"`. -/
theorem money_invariants_witness :
    mkMoney 5 "usd" = .error (.invalidCurrency "usd") ∧
    ((⟨5, "USD"⟩ : Money).amount = 5 ∧
      (⟨5, "USD"⟩ : Money).currency = "USD" ∧
      iso4217 (⟨5, "USD"⟩ : Money).currency = true) :=
  ⟨money_invariants.1 5 "usd" (by decide),
   money_invariants.2.1 5 "USD" ⟨5, "USD"⟩ (mkMoney_valid (by decide) 5)⟩

end MoneyWorks
